import Mathlib

/-!
Verification of the client-side state-and-synchronization layer of the
PendingChangesBot review dashboard (the Vue application in
`backend/static/reviews/app.js`).

The JavaScript source is shallowly embedded:

* JS strings edited through textareas are modelled as `List Char` (so that
  splitting, trimming and joining can be reasoned about character by
  character); opaque strings (titles, error messages, timestamps, sort-order
  names) are modelled as Lean `String`.
* Wiki identifiers may be numbers or strings (`===` distinguishes them), so
  they are modelled by the sum type `JsId`.
* `Date` parsing is modelled by an explicit oracle `dp : String → Option Int`
  (`none` models `NaN`); `Math.random()` draws are modelled by an oracle
  `rand : (k : Nat) → Fin (k + 1)` giving, for each loop index `k`, the value
  `Math.floor(Math.random() * (k + 1))`.
* every network request is modelled by a `FetchOutcome` value describing how
  the single `fetch` of that request settles; async functions return
  `Except String _` where `.error m` means the function's promise rejects
  with an error whose message is `m`.
-/

/-- A JavaScript wiki id: `id` fields may be numbers or strings, and `===`
never identifies a number with a string. -/
inductive JsId where
  | num (n : Int)
  | str (s : String)
  deriving DecidableEq, Repr

/-- JS falsiness of an id value (`!state.selectedWikiId`): the number `0` and
the empty string are falsy. -/
def JsId.falsy : JsId → Bool
  | .num n => n = 0
  | .str s => s = ""

/-- A revision record; the core treats its fields as opaque beyond existence,
so a single opaque field suffices. -/
structure Revision where
  revid : Int
  deriving DecidableEq, Repr

/-- A page as delivered by `GET .../pending/`: `revisions` may be absent or a
non-array value, modelled by `Option` (`none` = absent/non-array). -/
structure RawPage where
  pageid : Int
  title : String
  pending_since : Option String
  revisions : Option (List Revision)
  deriving DecidableEq, Repr

/-- A page after the revision backfill (`{...page, revisions}`). -/
structure Page where
  pageid : Int
  title : String
  pending_since : Option String
  revisions : List Revision
  deriving DecidableEq, Repr

/-- A per-wiki moderation configuration.  The two lists of strings are edited
through textareas, so their entries are modelled as `List Char`. -/
structure Configuration where
  blocking_categories : List (List Char)
  auto_approved_groups : List (List Char)
  deriving DecidableEq, Repr

/-- A configured wiki. -/
structure Wiki where
  id : JsId
  api_endpoint : String
  configuration : Configuration
  deriving DecidableEq, Repr

/-- The reactive `state` object. -/
structure St where
  wikis : List Wiki
  selectedWikiId : JsId
  sortOrder : String
  pages : List Page
  loading : Bool
  error : String
  configurationOpen : Bool
  deriving DecidableEq, Repr

/-- The reactive `forms` object (two textarea contents). -/
structure Forms where
  blockingCategories : List Char
  autoApprovedGroups : List Char
  deriving DecidableEq, Repr

/-! ### The textarea codec (`parseTextarea`) -/

/-- The set of characters removed by JavaScript `String.prototype.trim`
(ECMAScript WhiteSpace and LineTerminator code points). -/
def isJsWhitespaceChar (c : Char) : Bool :=
  c = ' ' || c = '\t' || c = '\n' || c.val = 0x0b || c.val = 0x0c ||
  c = '\r' || c.val = 0xa0 || c.val = 0x1680 ||
  (0x2000 ≤ c.val && c.val ≤ 0x200a) ||
  c.val = 0x2028 || c.val = 0x2029 || c.val = 0x202f || c.val = 0x205f ||
  c.val = 0x3000 || c.val = 0xfeff

/-- JavaScript `line.trim()`: drop whitespace from both ends. -/
def jsTrim (l : List Char) : List Char :=
  ((l.dropWhile isJsWhitespaceChar).reverse.dropWhile isJsWhitespaceChar).reverse

/-- Function `parseTextarea(value)`: split on `"\n"`, trim each line, drop blank
lines. -/
def parseTextarea (value : List Char) : List (List Char) :=
  ((value.splitOn '\n').map jsTrim).filter (fun line => decide (line.length > 0))

/-! ### The sort engine (`getPendingTimestamp`, `shufflePages`, `sortPages`) -/

/-- Function `getPendingTimestamp(page)`: falsy (`absent` or empty) `pending_since`
gives `0`; otherwise the `Date` parse, with `NaN` (modelled by the oracle
returning `none`) mapped to `0`. -/
def getPendingTimestamp (dp : String → Option Int) (page : Page) : Int :=
  match page.pending_since with
  | none => 0
  | some v =>
    if v = "" then 0
    else match dp v with
      | none => 0
      | some t => t

/-- One iteration of the Fisher–Yates loop body: the destructuring swap
`[a[i], a[j]] = [a[j], a[i]]` (identity when an index is out of bounds, which
the loop never produces). -/
def listSwap (l : List α) (i j : Nat) : List α :=
  match l[i]?, l[j]? with
  | some x, some y => (l.set i y).set j x
  | _, _ => l

/-- The downward `for` loop of `shufflePages`: the argument `k` is the current
loop index, counting down to `1`; `rand k` is the value
`Math.floor(Math.random() * (k + 1))` drawn at index `k`. -/
def shuffleLoop (rand : (k : Nat) → Fin (k + 1)) : Nat → List α → List α
  | 0, l => l
  | k + 1, l => shuffleLoop rand k (listSwap l (k + 1) (rand (k + 1)).val)

/-- Function `shufflePages(pages)`: copy, then Fisher–Yates from index `length - 1`
down to `1`. -/
def shufflePages (rand : (k : Nat) → Fin (k + 1)) (pages : List α) : List α :=
  shuffleLoop rand (pages.length - 1) pages

/-- The comparator passed to `Array.prototype.sort`. -/
def pageCompare (dp : String → Option Int) (order : String) (first second : Page) : Int :=
  let firstTimestamp := getPendingTimestamp dp first
  let secondTimestamp := getPendingTimestamp dp second
  if order = "oldest" then firstTimestamp - secondTimestamp
  else secondTimestamp - firstTimestamp

/-- Function `sortPages(pages, order)`.  A non-array argument is modelled by `none`.
`Array.prototype.sort` with a consistent comparator is a stable sort placing
`a` before `b` whenever the comparator is `≤ 0`, modelled by `mergeSort`. -/
def sortPages (dp : String → Option Int) (rand : (k : Nat) → Fin (k + 1))
    (pages : Option (List Page)) (order : String) : List Page :=
  match pages with
  | none => []
  | some ps =>
    if order = "random" then shufflePages rand ps
    else ps.mergeSort (fun a b => decide (pageCompare dp order a b ≤ 0))

/-! ### The API gateway (`apiRequest`) -/

/-- How one network request settles, as observed by `apiRequest`:
`netErr` — `fetch` rejects; `httpErr` — non-2xx response, carrying the status
text and the `error` field of the response body when the body parses to JSON
with a truthy `error` (else `none`); `decodeErr` — 2xx response whose body
fails to decode; `ok` — 2xx response decoding to `v`. -/
inductive FetchOutcome (α : Type) where
  | netErr (msg : String)
  | httpErr (statusText : String) (bodyErr : Option String)
  | decodeErr (msg : String)
  | ok (v : α)

/-- Predicate: `out` is a settlement on which `apiRequest`'s promise rejects. -/
def FetchOutcome.isFailure : FetchOutcome α → Bool
  | .ok _ => false
  | _ => true

/-- The message of the error `apiRequest` rejects with, `none` on success. -/
def failureMessage : FetchOutcome α → Option String
  | .netErr m => some m
  | .httpErr statusText bodyErr =>
    some (let m := match bodyErr with
      | some e => e
      | none => statusText
      if m = "" then "Unknown error" else m)
  | .decodeErr m => some m
  | .ok _ => none

/-- Expression `error.message || "Request failed"` in `apiRequest`'s catch clause. -/
def orRequestFailed (m : String) : String :=
  if m = "" then "Request failed" else m

/-- The tail of `apiRequest` from the moment its `fetch` settles, run against
the state at that moment: on `netErr`/`httpErr` the catch clause stores the
normalized message in `state.error` and rethrows; on `decodeErr` the rejected
`response.json()` promise is *returned without `await`*, so the catch clause
is skipped and the error slot is left as is. -/
def apiRequestSettle (out : FetchOutcome α) (s : St) : St × Except String α :=
  match out with
  | .ok v => (s, .ok v)
  | .decodeErr m => (s, .error m)
  | .httpErr statusText bodyErr =>
    let message := match bodyErr with
      | some e => e
      | none => statusText
    let message := if message = "" then "Unknown error" else message
    ({ s with error := orRequestFailed message }, .error message)
  | .netErr m => ({ s with error := orRequestFailed m }, .error m)

/-- Function `apiRequest(url, options)` run to completion with no interference:
clears `state.error` synchronously at call start, then settles. -/
def apiRequest (out : FetchOutcome α) (s : St) : St × Except String α :=
  apiRequestSettle out { s with error := "" }

/-! ### Revision backfill (`fetchRevisionsForPage`) -/

/-- The decoded body of `GET .../revisions/`; `data.revisions || []` treats an
absent field (`none`) as the empty list. -/
structure RevisionsResponse where
  revisions : Option (List Revision)

/-- The value `fetchRevisionsForPage` resolves with: the fetched list on
success, `[]` on any failure (its own catch swallows the rejection). -/
def fetchRevisionsValue (out : FetchOutcome RevisionsResponse) : List Revision :=
  match out with
  | .ok data => data.revisions.getD []
  | _ => []

/-- Function `fetchRevisionsForPage(wikiId, pageId)` with its effect on the shared
state (the error-slot writes of its inner `apiRequest`). -/
def fetchRevisionsForPage (out : FetchOutcome RevisionsResponse) (s : St) :
    St × List Revision :=
  let r := apiRequest out s
  match r.2 with
  | .ok data => (r.1, data.revisions.getD [])
  | .error _ => (r.1, [])

/-- The value of one entry of the `Promise.all` array: take the embedded
revisions when they form a non-empty array, otherwise backfill. -/
def enrichOneValue (out : FetchOutcome RevisionsResponse) (page : RawPage) : Page :=
  let revisions := page.revisions.getD []
  let revisions := if revisions.length = 0 then fetchRevisionsValue out else revisions
  { pageid := page.pageid, title := page.title,
    pending_since := page.pending_since, revisions := revisions }

/-- One entry of the `Promise.all` array together with its state effect. -/
def enrichOne (out : FetchOutcome RevisionsResponse) (page : RawPage) (s : St) :
    St × Page :=
  let revisions := page.revisions.getD []
  if revisions.length = 0 then
    let r := fetchRevisionsForPage out s
    (r.1, { pageid := page.pageid, title := page.title,
            pending_since := page.pending_since, revisions := r.2 })
  else
    (s, { pageid := page.pageid, title := page.title,
          pending_since := page.pending_since, revisions := revisions })

/-- The whole backfill batch, pages settled in order; `revOuts i` is the
settlement of the revisions request of the page at position `i`. -/
def enrichPagesAux (revOuts : Nat → FetchOutcome RevisionsResponse) (s : St) :
    Nat → List RawPage → St × List Page
  | _, [] => (s, [])
  | i, page :: rest =>
    let r1 := enrichOne (revOuts i) page s
    let r2 := enrichPagesAux revOuts r1.1 (i + 1) rest
    (r2.1, r1.2 :: r2.2)

/-- Value level of the backfill batch starting at position `i`. -/
def enrichAllValue (revOuts : Nat → FetchOutcome RevisionsResponse) :
    Nat → List RawPage → List Page
  | _, [] => []
  | i, page :: rest => enrichOneValue (revOuts i) page :: enrichAllValue revOuts (i + 1) rest

/-! ### The pending-set synchronizer (`loadPending`, `refresh`, `clearCache`) -/

/-- The decoded body of `GET .../pending/`; `data.pages || []` treats an
absent field as the empty list. -/
structure PendingResponse where
  pages : Option (List RawPage)

/-- The final continuation of `loadPending`, entered when the `Promise.all`
over the backfill settles, run against the state `s` current at that moment:
commit the sorted result only if the captured `wikiId` still equals the
currently selected id, then (`finally`) drop `loading`. -/
def loadPendingCommitCont (W : JsId) (enriched : List Page)
    (rand : (k : Nat) → Fin (k + 1)) (dp : String → Option Int) (s : St) : St :=
  let s := if W = s.selectedWikiId then
      { s with pages := sortPages dp rand (some enriched) s.sortOrder }
    else s
  { s with loading := false }

/-- The continuation of `loadPending` from the moment the pending fetch
settles, run against the state `s` current at that moment.  On a rejection
the inner `apiRequest` writes the error slot, then `loadPending`'s catch sets
`pages` to `[]` (without any staleness check) and `finally` drops `loading`.
On success the backfill runs and `loadPendingCommitCont` finishes. -/
def loadPendingSettleCont (W : JsId) (pend : FetchOutcome PendingResponse)
    (revOuts : Nat → FetchOutcome RevisionsResponse)
    (rand : (k : Nat) → Fin (k + 1)) (dp : String → Option Int) (s : St) : St :=
  let r := apiRequestSettle pend s
  match r.2 with
  | .error _ => { r.1 with pages := [], loading := false }
  | .ok data =>
    let e := enrichPagesAux revOuts r.1 0 (data.pages.getD [])
    loadPendingCommitCont W e.2 rand dp e.1

/-- Function `loadPending()` run to completion with no interference from other
continuations.  The second component records how its promise settles (it
always resolves: every rejection of an inner await is caught). -/
def loadPending (pend : FetchOutcome PendingResponse)
    (revOuts : Nat → FetchOutcome RevisionsResponse)
    (rand : (k : Nat) → Fin (k + 1)) (dp : String → Option Int) (s : St) :
    St × Except String Unit :=
  if s.selectedWikiId.falsy then ({ s with pages := [] }, .ok ())
  else
    let W := s.selectedWikiId
    let s := { s with loading := true, error := "" }
    (loadPendingSettleCont W pend revOuts rand dp s, .ok ())

/-- Function `refresh()`: reindex request, then `loadPending`, `finally` drop
`loading`.  There is no catch clause: a rejection of the reindex request
propagates to the caller after the `finally` block runs. -/
def refresh (reindex : FetchOutcome Unit) (pend : FetchOutcome PendingResponse)
    (revOuts : Nat → FetchOutcome RevisionsResponse)
    (rand : (k : Nat) → Fin (k + 1)) (dp : String → Option Int) (s : St) :
    St × Except String Unit :=
  if s.selectedWikiId.falsy then (s, .ok ())
  else
    let s := { s with loading := true }
    let r := apiRequest reindex s
    match r.2 with
    | .error m => ({ r.1 with loading := false }, .error m)
    | .ok _ =>
      let lp := loadPending pend revOuts rand dp r.1
      match lp.2 with
      | .ok _ => ({ lp.1 with loading := false }, .ok ())
      | .error m => ({ lp.1 with loading := false }, .error m)

/-- Function `clearCache()`: purge request, then empty `pages`, `finally` drop
`loading`.  As in `refresh`, there is no catch clause. -/
def clearCache (out : FetchOutcome Unit) (s : St) : St × Except String Unit :=
  if s.selectedWikiId.falsy then (s, .ok ())
  else
    let s := { s with loading := true }
    let r := apiRequest out s
    match r.2 with
    | .error m => ({ r.1 with loading := false }, .error m)
    | .ok _ => ({ r.1 with pages := [], loading := false }, .ok ())

/-! ### The configuration form bridge (`syncForms`, `saveConfiguration`) -/

/-- The `currentWiki` computed value: the wiki whose id `===` the selected
id. -/
def currentWiki (s : St) : Option Wiki :=
  s.wikis.find? (fun wiki => wiki.id == s.selectedWikiId)

/-- Function `syncForms()`: repopulate the two textareas from the current wiki's
configuration (newline-joined), or blank them when no wiki is current. -/
def syncForms (s : St) : Forms :=
  match currentWiki s with
  | none => { blockingCategories := [], autoApprovedGroups := [] }
  | some wiki =>
    { blockingCategories := List.intercalate ['\n'] wiki.configuration.blocking_categories,
      autoApprovedGroups := List.intercalate ['\n'] wiki.configuration.auto_approved_groups }

/-- Function `saveConfiguration()`: parse both textareas, `PUT` the payload, and on
success write the response into the matching wiki's `configuration` and
re-run `syncForms`; the catch clause ignores the failure ("Error already
handled in apiRequest").  The payload is returned for inspection. -/
def saveConfiguration (put : FetchOutcome Configuration) (s : St) (forms : Forms) :
    St × Forms × Except String Unit :=
  if s.selectedWikiId.falsy then (s, forms, .ok ())
  else
    let _payload : Configuration :=
      { blocking_categories := parseTextarea forms.blockingCategories,
        auto_approved_groups := parseTextarea forms.autoApprovedGroups }
    let r := apiRequest put s
    match r.2 with
    | .error _ => (r.1, forms, .ok ())
    | .ok data =>
      let s := r.1
      let wikiIndex := s.wikis.findIdx (fun wiki => wiki.id == s.selectedWikiId)
      let s := if wikiIndex < s.wikis.length then
          { s with wikis := s.wikis.modify (fun wiki => { wiki with configuration := data }) wikiIndex }
        else s
      (s, syncForms s, .ok ())

/-! ### The preference store (`loadFromStorage`, `saveToStorage`) -/

/-- How one access to the backing `localStorage` settles. -/
inductive StorageResult (α : Type) where
  | ok (v : α)
  | failure

/-- Function `loadFromStorage(key)`: the stored value, with any storage error caught
and turned into `null` (as is the no-`window` environment). -/
def loadFromStorage (out : StorageResult (Option String)) : Option String :=
  match out with
  | .ok v => v
  | .failure => none

/-- Function `saveToStorage(key, value)`: storage errors are caught and ignored, so
the call always returns normally. -/
def saveToStorage (out : StorageResult Unit) : Except String Unit :=
  match out with
  | .ok _ => .ok ()
  | .failure => .ok ()

/-! ### Permutation of the Fisher–Yates shuffle -/

/-- A destructuring swap permutes the list: counted occurrence by
occurrence. -/
theorem listSwap_perm (l : List α) (i j : Nat) : List.Perm (listSwap l i j) l := by
  classical
  unfold listSwap
  cases hi : l[i]? with
  | none => exact List.Perm.refl _
  | some x =>
    cases hj : l[j]? with
    | none => exact List.Perm.refl _
    | some y =>
      obtain ⟨hi', hx⟩ := List.getElem?_eq_some_iff.1 hi
      obtain ⟨hj', hy⟩ := List.getElem?_eq_some_iff.1 hj
      rw [List.perm_iff_count]
      intro b
      have hj'' : j < (l.set i y).length := by simpa using hj'
      rw [List.count_set _ _ _ _ hj'', List.count_set _ _ _ _ hi']
      have hset : (l.set i y)[j] = y := by
        rw [List.getElem_set]
        split
        · rfl
        · exact hy
      rw [hset, hx]
      have hcx : (if x == b then 1 else 0) = 1 → 1 ≤ l.count b := by
        intro h
        split at h
        · next hxb =>
          apply List.count_pos_iff.2
          rw [← (beq_iff_eq ..).1 hxb, ← hx]
          exact List.getElem_mem hi'
        · omega
      have h1 : (if x == b then 1 else 0) ≤ 1 := by split <;> omega
      have h2 : (if y == b then 1 else 0) ≤ 1 := by split <;> omega
      omega

/-- Each pass of the shuffle loop permutes the list. -/
theorem shuffleLoop_perm (rand : (k : Nat) → Fin (k + 1)) :
    ∀ (k : Nat) (l : List α), List.Perm (shuffleLoop rand k l) l := by
  intro k
  induction k with
  | zero => intro l; exact List.Perm.refl _
  | succ k ih =>
    intro l
    exact (ih _).trans (listSwap_perm l (k + 1) (rand (k + 1)).val)

/-- Lemma: `shufflePages` returns a permutation of its input, whatever the random
draws. -/
theorem shufflePages_perm (rand : (k : Nat) → Fin (k + 1)) (pages : List α) :
    List.Perm (shufflePages rand pages) pages :=
  shuffleLoop_perm rand (pages.length - 1) pages

/-- Lemma: `sortPages` returns a permutation of its input for every order. -/
theorem sortPages_perm (dp : String → Option Int) (rand : (k : Nat) → Fin (k + 1))
    (pages : List Page) (order : String) :
    List.Perm (sortPages dp rand (some pages) order) pages := by
  show List.Perm
    (if order = "random" then shufflePages rand pages
     else pages.mergeSort (fun a b => decide (pageCompare dp order a b ≤ 0))) pages
  split
  · exact shufflePages_perm rand pages
  · exact List.mergeSort_perm pages _

/-- C6: for every input list of pages and every outcome of the random-number
source, `sort(pages, "random")` returns a permutation of the input: the
multiset of elements of the output equals that of the input, and so does the
set of elements, on every call. -/
theorem c6_random_sort_permutes (dp : String → Option Int)
    (rand : (k : Nat) → Fin (k + 1)) (pages : List Page) :
    List.Perm (sortPages dp rand (some pages) "random") pages ∧
    (↑(sortPages dp rand (some pages) "random") : Multiset Page) = ↑pages ∧
    ∀ p : Page, p ∈ sortPages dp rand (some pages) "random" ↔ p ∈ pages := by
  have h := sortPages_perm dp rand pages "random"
  exact ⟨h, Multiset.coe_eq_coe.2 h, fun p => h.mem_iff⟩

/-- The "oldest" comparator orders by nondecreasing derived timestamp. -/
theorem pageCompare_oldest_le (dp : String → Option Int) (a b : Page) :
    (decide (pageCompare dp "oldest" a b ≤ 0) = true) ↔
      getPendingTimestamp dp a ≤ getPendingTimestamp dp b := by
  simp [pageCompare]

/-- The default comparator (used for "newest") orders by nonincreasing
derived timestamp. -/
theorem pageCompare_newest_le (dp : String → Option Int) (a b : Page) :
    (decide (pageCompare dp "newest" a b ≤ 0) = true) ↔
      getPendingTimestamp dp b ≤ getPendingTimestamp dp a := by
  simp [pageCompare]

/-- A stable sort by a nondecreasing key is the reverse of a stable sort by
the nonincreasing key as soon as keys are pairwise distinct: both orders are
then strictly monotone, and a strictly sorted permutation is unique. -/
theorem mergeSort_key_reverse {α : Type} (f : α → Int) (leA leB : α → α → Bool)
    (hA : ∀ a b, leA a b = true ↔ f a ≤ f b)
    (hB : ∀ a b, leB a b = true ↔ f b ≤ f a)
    (l : List α) (hdist : l.Pairwise (fun a b => f a ≠ f b)) :
    l.mergeSort leA = (l.mergeSort leB).reverse := by
  have hAp : List.Perm (l.mergeSort leA) l := List.mergeSort_perm l leA
  have hBp : List.Perm (l.mergeSort leB) l := List.mergeSort_perm l leB
  have dA : (l.mergeSort leA).Pairwise (fun a b => f a ≠ f b) :=
    hdist.perm hAp.symm (fun h => Ne.symm h)
  have dB : (l.mergeSort leB).Pairwise (fun a b => f a ≠ f b) :=
    hdist.perm hBp.symm (fun h => Ne.symm h)
  have sA : (l.mergeSort leA).Pairwise (fun a b => f a ≤ f b) := by
    have := @List.sorted_mergeSort _ leA
      (fun a b c h1 h2 => by
        rw [hA] at h1 h2 ⊢
        omega)
      (fun a b => by
        rcases le_total (f a) (f b) with h | h
        · simp [hA a b, h]
        · simp [hA b a, h])
      l
    exact this.imp (fun h => (hA _ _).1 h)
  have sB : (l.mergeSort leB).Pairwise (fun a b => f b ≤ f a) := by
    have := @List.sorted_mergeSort _ leB
      (fun a b c h1 h2 => by
        rw [hB] at h1 h2 ⊢
        omega)
      (fun a b => by
        rcases le_total (f a) (f b) with h | h
        · simp [hB b a, h]
        · simp [hB a b, h])
      l
    exact this.imp (fun h => (hB _ _).1 h)
  have sA' : (l.mergeSort leA).Pairwise (fun a b => f a < f b) :=
    (sA.and dA).imp (fun h => lt_of_le_of_ne h.1 h.2)
  have sB' : (l.mergeSort leB).reverse.Pairwise (fun a b => f a < f b) := by
    rw [List.pairwise_reverse]
    exact (sB.and dB).imp (fun h => lt_of_le_of_ne h.1 (Ne.symm h.2))
  haveI : IsAntisymm α (fun a b => f a < f b) :=
    ⟨fun a b h1 h2 => absurd (h1.trans h2) (lt_irrefl _)⟩
  exact List.eq_of_perm_of_sorted
    (hAp.trans (hBp.symm.trans (List.reverse_perm (l.mergeSort leB)).symm)) sA' sB'

/-- C7: when no two pages of the input have equal derived pending timestamps,
`sort(pages, "oldest")` is the exact reverse of `sort(pages, "newest")`. -/
theorem c7_oldest_is_reverse_of_newest (dp : String → Option Int)
    (rand : (k : Nat) → Fin (k + 1)) (pages : List Page)
    (hdist : pages.Pairwise
      (fun a b => getPendingTimestamp dp a ≠ getPendingTimestamp dp b)) :
    sortPages dp rand (some pages) "oldest" =
      (sortPages dp rand (some pages) "newest").reverse := by
  have hOrd : sortPages dp rand (some pages) "oldest" =
      pages.mergeSort (fun a b => decide (pageCompare dp "oldest" a b ≤ 0)) := by
    simp only [sortPages]
    rw [if_neg (by decide)]
  have hNew : sortPages dp rand (some pages) "newest" =
      pages.mergeSort (fun a b => decide (pageCompare dp "newest" a b ≤ 0)) := by
    simp only [sortPages]
    rw [if_neg (by decide)]
  rw [hOrd, hNew]
  exact mergeSort_key_reverse (getPendingTimestamp dp) _ _
    (pageCompare_oldest_le dp) (pageCompare_newest_le dp) pages hdist

/-- Witness for C7 at a concrete two-page list with distinct timestamps. -/
theorem c7_oldest_is_reverse_of_newest_witness :
    sortPages (fun s => if s = "t1" then some 1 else some 2)
        (fun k => ⟨0, Nat.succ_pos k⟩)
        (some [⟨1, "A", some "t1", []⟩, ⟨2, "B", some "t2", []⟩]) "oldest" =
      (sortPages (fun s => if s = "t1" then some 1 else some 2)
        (fun k => ⟨0, Nat.succ_pos k⟩)
        (some [⟨1, "A", some "t1", []⟩, ⟨2, "B", some "t2", []⟩]) "newest").reverse :=
  c7_oldest_is_reverse_of_newest _ _ _ (by
    constructor
    · intro b hb
      simp only [List.mem_singleton] at hb
      subst hb
      decide
    · simp)

/-! ### Round-trip of the textarea codec -/

/-- C5 (amended): joining with newlines and re-parsing reproduces the
sequence with each entry trimmed, for sequences of newline-free strings that
are non-empty after trimming. -/
theorem c5_parse_join_roundtrip (lines : List (List Char))
    (hnb : ∀ l ∈ lines, jsTrim l ≠ [])
    (hnl : ∀ l ∈ lines, '\n' ∉ l) :
    parseTextarea (List.intercalate ['\n'] lines) = lines.map jsTrim := by
  cases lines with
  | nil => rfl
  | cons l ls =>
    unfold parseTextarea
    rw [List.splitOn_intercalate (l :: ls) '\n' hnl (by simp)]
    apply List.filter_eq_self.mpr
    intro a ha
    obtain ⟨l', hl', rfl⟩ := List.mem_map.1 ha
    simpa using List.length_pos.2 (hnb l' hl')

/-- Witness for C5 (amended) at a concrete two-line input. -/
theorem c5_parse_join_roundtrip_witness :
    parseTextarea (List.intercalate ['\n'] [['a'], [' ', 'b']]) =
      [['a'], [' ', 'b']].map jsTrim :=
  c5_parse_join_roundtrip _ (by decide) (by decide)

/-- Counterexample to C5 as stated: the single string `"a\nb"` is non-empty
after trimming, yet parsing the join splits it in two, so the result is not
the trimmed input sequence. -/
theorem c5_counterexample :
    (∀ l ∈ [['a', '\n', 'b']], jsTrim l ≠ []) ∧
      parseTextarea (List.intercalate ['\n'] [['a', '\n', 'b']]) ≠
        [['a', '\n', 'b']].map jsTrim := by
  decide

/-! ### Frame facts: which state fields each continuation writes -/

/-- Relation: `t` agrees with `s` on every field except possibly `error`. -/
def agreesExceptError (s t : St) : Prop :=
  t.wikis = s.wikis ∧ t.selectedWikiId = s.selectedWikiId ∧ t.sortOrder = s.sortOrder ∧
  t.pages = s.pages ∧ t.loading = s.loading ∧ t.configurationOpen = s.configurationOpen

theorem agreesExceptError_refl (s : St) : agreesExceptError s s :=
  ⟨rfl, rfl, rfl, rfl, rfl, rfl⟩

theorem agreesExceptError_trans {s t u : St} (h1 : agreesExceptError s t)
    (h2 : agreesExceptError t u) : agreesExceptError s u :=
  ⟨h2.1.trans h1.1, h2.2.1.trans h1.2.1, h2.2.2.1.trans h1.2.2.1,
   h2.2.2.2.1.trans h1.2.2.2.1, h2.2.2.2.2.1.trans h1.2.2.2.2.1,
   h2.2.2.2.2.2.trans h1.2.2.2.2.2⟩

/-- The settling `apiRequest` writes only the error slot. -/
theorem apiRequestSettle_agrees (out : FetchOutcome α) (s : St) :
    agreesExceptError s (apiRequestSettle out s).1 := by
  cases out <;> exact ⟨rfl, rfl, rfl, rfl, rfl, rfl⟩

/-- Lemma: `fetchRevisionsForPage` writes only the error slot. -/
theorem fetchRevisionsForPage_agrees (out : FetchOutcome RevisionsResponse) (s : St) :
    agreesExceptError s (fetchRevisionsForPage out s).1 := by
  cases out <;> exact ⟨rfl, rfl, rfl, rfl, rfl, rfl⟩

/-- One backfill entry writes only the error slot. -/
theorem enrichOne_agrees (out : FetchOutcome RevisionsResponse) (page : RawPage) (s : St) :
    agreesExceptError s (enrichOne out page s).1 := by
  by_cases h : (page.revisions.getD []).length = 0
  · simpa [enrichOne, h] using fetchRevisionsForPage_agrees out s
  · simpa [enrichOne, h] using agreesExceptError_refl s

/-- The whole backfill batch writes only the error slot. -/
theorem enrichPagesAux_agrees (revOuts : Nat → FetchOutcome RevisionsResponse)
    (raw : List RawPage) : ∀ (s : St) (i : Nat),
    agreesExceptError s (enrichPagesAux revOuts s i raw).1 := by
  induction raw with
  | nil => intro s i; exact agreesExceptError_refl s
  | cons page rest ih =>
    intro s i
    exact agreesExceptError_trans (enrichOne_agrees (revOuts i) page s)
      (ih (enrichOne (revOuts i) page s).1 (i + 1))

/-- C2: when the selection at resolution time differs from the captured wiki
id, the commit continuation of `loadPending` discards its result silently:
the resulting state is the settle-time state with `loading` dropped, so
`pages` is never set to the stale list, `error` is untouched, and no
exception is raised (the continuation is a total state transformer). -/
theorem c2_stale_success_discarded (W : JsId) (enriched : List Page)
    (rand : (k : Nat) → Fin (k + 1)) (dp : String → Option Int) (s : St)
    (h : W ≠ s.selectedWikiId) :
    loadPendingCommitCont W enriched rand dp s = { s with loading := false } := by
  unfold loadPendingCommitCont
  rw [if_neg h]

/-- Witness for C2: a run captured for wiki `1` resolving while wiki `2` is
selected changes nothing but `loading`. -/
theorem c2_stale_success_discarded_witness :
    loadPendingCommitCont (.num 1) [⟨9, "Stale", none, []⟩]
        (fun k => ⟨0, Nat.succ_pos k⟩) (fun _ => none)
        ⟨[], .num 2, "newest", [⟨7, "T", none, []⟩], true, "", false⟩ =
      { (⟨[], .num 2, "newest", [⟨7, "T", none, []⟩], true, "", false⟩ : St) with
          loading := false } :=
  c2_stale_success_discarded _ _ _ _ _ (by decide)

/-- C1 (amended): when the run is stale at settle time, the success path
performs no write to `state.pages` (the staleness guard precedes the commit),
but the failure path sets `state.pages` to `[]` unconditionally; `loading` is
cleared on every path. -/
theorem c1_stale_guard (W : JsId) (pend : FetchOutcome PendingResponse)
    (revOuts : Nat → FetchOutcome RevisionsResponse)
    (rand : (k : Nat) → Fin (k + 1)) (dp : String → Option Int) (s : St)
    (h : W ≠ s.selectedWikiId) :
    (∀ data, pend = FetchOutcome.ok data →
      (loadPendingSettleCont W pend revOuts rand dp s).pages = s.pages)
    ∧ (pend.isFailure = true →
      (loadPendingSettleCont W pend revOuts rand dp s).pages = [])
    ∧ (loadPendingSettleCont W pend revOuts rand dp s).loading = false := by
  cases pend with
  | ok data =>
    have hag := enrichPagesAux_agrees revOuts (data.pages.getD []) s 0
    refine ⟨fun d hd => ?_, fun hf => by simp [FetchOutcome.isFailure] at hf, ?_⟩
    · unfold loadPendingSettleCont loadPendingCommitCont
      simp only [apiRequestSettle]
      rw [if_neg (fun hEq => h (hEq.trans hag.2.1))]
      exact hag.2.2.2.1
    · unfold loadPendingSettleCont loadPendingCommitCont
      simp only [apiRequestSettle]
  | netErr m =>
    refine ⟨fun d hd => ?_, fun _ => rfl, rfl⟩
    exact FetchOutcome.noConfusion hd
  | httpErr a b =>
    refine ⟨fun d hd => ?_, fun _ => rfl, rfl⟩
    exact FetchOutcome.noConfusion hd
  | decodeErr m =>
    refine ⟨fun d hd => ?_, fun _ => rfl, rfl⟩
    exact FetchOutcome.noConfusion hd

/-- Witness for C1 (amended): a stale successful run leaves `pages` alone,
and a stale failed run empties `pages`. -/
theorem c1_stale_guard_witness :
    (loadPendingSettleCont (.num 1) (FetchOutcome.ok ⟨some []⟩) (fun _ => .netErr "x")
        (fun k => ⟨0, Nat.succ_pos k⟩) (fun _ => none)
        ⟨[], .num 2, "newest", [⟨7, "T", none, []⟩], true, "", false⟩).pages =
      (⟨[], .num 2, "newest", [⟨7, "T", none, []⟩], true, "", false⟩ : St).pages ∧
    (loadPendingSettleCont (.num 1) (FetchOutcome.netErr "boom") (fun _ => .netErr "x")
        (fun k => ⟨0, Nat.succ_pos k⟩) (fun _ => none)
        ⟨[], .num 2, "newest", [⟨7, "T", none, []⟩], true, "", false⟩).pages = [] :=
  ⟨(c1_stale_guard _ _ _ _ _ _ (by decide)).1 ⟨some []⟩ rfl,
   (c1_stale_guard _ _ _ _ _ _ (by decide)).2.1 rfl⟩

/-- Counterexample to C1 as stated: a run for wiki `1` that fails while wiki
`2` is selected still writes `state.pages` (it empties it), with no staleness
check on the failure path. -/
theorem c1_counterexample :
    JsId.num 1 ≠ (⟨[], .num 2, "newest", [⟨7, "T", none, []⟩], true, "", false⟩ : St).selectedWikiId
    ∧ (loadPendingSettleCont (.num 1) (.netErr "boom") (fun _ => .netErr "x")
        (fun k => ⟨0, Nat.succ_pos k⟩) (fun _ => none)
        ⟨[], .num 2, "newest", [⟨7, "T", none, []⟩], true, "", false⟩).pages
      ≠ (⟨[], .num 2, "newest", [⟨7, "T", none, []⟩], true, "", false⟩ : St).pages :=
  ⟨by decide, by decide⟩

/-! ### Value-level facts about the revision backfill -/

/-- A failed revisions fetch resolves to the empty sequence. -/
theorem fetchRevisionsValue_of_isFailure (out : FetchOutcome RevisionsResponse)
    (h : out.isFailure = true) : fetchRevisionsValue out = [] := by
  cases out <;> simp_all [FetchOutcome.isFailure, fetchRevisionsValue]

/-- The value a backfill entry resolves with does not depend on the shared
state. -/
theorem enrichOne_snd (out : FetchOutcome RevisionsResponse) (page : RawPage) (s : St) :
    (enrichOne out page s).2 = enrichOneValue out page := by
  by_cases h : (page.revisions.getD []).length = 0 <;>
    · simp only [enrichOne, enrichOneValue, h, if_pos, if_neg]
      cases out <;> rfl

/-- The page list the backfill batch resolves with does not depend on the
shared state. -/
theorem enrichPagesAux_snd (revOuts : Nat → FetchOutcome RevisionsResponse)
    (raw : List RawPage) : ∀ (s : St) (i : Nat),
    (enrichPagesAux revOuts s i raw).2 = enrichAllValue revOuts i raw := by
  induction raw with
  | nil => intro s i; rfl
  | cons page rest ih =>
    intro s i
    simp only [enrichPagesAux, enrichAllValue, enrichOne_snd]
    exact congrArg _ (ih _ _)

/-- Entry `j` of the backfill batch is the enrichment of raw page `j` by its
own fetch outcome alone. -/
theorem enrichAllValue_getElem? (revOuts : Nat → FetchOutcome RevisionsResponse) :
    ∀ (raw : List RawPage) (i j : Nat),
    (enrichAllValue revOuts i raw)[j]? =
      (raw[j]?).map (fun p => enrichOneValue (revOuts (i + j)) p) := by
  intro raw
  induction raw with
  | nil => intro i j; rfl
  | cons page rest ih =>
    intro i j
    cases j with
    | zero => simp [enrichAllValue]
    | succ j =>
      simp only [enrichAllValue, List.getElem?_cons_succ]
      rw [ih (i + 1) j]
      have : i + 1 + j = i + (j + 1) := by omega
      rw [this]

/-- The backfill batch completes for every page. -/
theorem enrichAllValue_length (revOuts : Nat → FetchOutcome RevisionsResponse) :
    ∀ (raw : List RawPage) (i : Nat),
    (enrichAllValue revOuts i raw).length = raw.length := by
  intro raw
  induction raw with
  | nil => intro i; rfl
  | cons page rest ih =>
    intro i
    simp only [enrichAllValue, List.length_cons, ih]

/-- A page needing backfill whose fetch fails resolves with no revisions. -/
theorem enrichOneValue_of_failure (out : FetchOutcome RevisionsResponse) (p : RawPage)
    (hneed : p.revisions.getD [] = []) (hfail : out.isFailure = true) :
    enrichOneValue out p = ⟨p.pageid, p.title, p.pending_since, []⟩ := by
  simp [enrichOneValue, hneed, fetchRevisionsValue_of_isFailure out hfail]

/-- C4: a failing revisions fetch for one page does not abort the batch: the
batch completes with one entry per raw page, the failing page resolves with
an empty revisions sequence, every sibling resolves from its own outcome
alone, and a non-stale run commits the sorted batch, which contains the
failing page with empty revisions. -/
theorem c4_backfill_failure_does_not_abort
    (revOuts : Nat → FetchOutcome RevisionsResponse) (raw : List RawPage)
    (i : Nat) (p : RawPage) (hp : raw[i]? = some p)
    (hneed : p.revisions.getD [] = [])
    (hfail : (revOuts i).isFailure = true)
    (rand : (k : Nat) → Fin (k + 1)) (dp : String → Option Int) (s : St)
    (W : JsId) (hW : W = s.selectedWikiId) :
    (enrichAllValue revOuts 0 raw).length = raw.length
    ∧ (enrichAllValue revOuts 0 raw)[i]? =
        some ⟨p.pageid, p.title, p.pending_since, []⟩
    ∧ (∀ j q, j ≠ i → raw[j]? = some q →
        (enrichAllValue revOuts 0 raw)[j]? = some (enrichOneValue (revOuts j) q))
    ∧ (loadPendingCommitCont W (enrichAllValue revOuts 0 raw) rand dp s).pages
        = sortPages dp rand (some (enrichAllValue revOuts 0 raw)) s.sortOrder
    ∧ (⟨p.pageid, p.title, p.pending_since, []⟩ : Page) ∈
        (loadPendingCommitCont W (enrichAllValue revOuts 0 raw) rand dp s).pages := by
  have hi : (enrichAllValue revOuts 0 raw)[i]? =
      some ⟨p.pageid, p.title, p.pending_since, []⟩ := by
    rw [enrichAllValue_getElem? revOuts raw 0 i, hp]
    simp [enrichOneValue_of_failure _ _ hneed hfail]
  have hcommit : (loadPendingCommitCont W (enrichAllValue revOuts 0 raw) rand dp s).pages
      = sortPages dp rand (some (enrichAllValue revOuts 0 raw)) s.sortOrder := by
    unfold loadPendingCommitCont
    rw [if_pos hW]
  refine ⟨enrichAllValue_length revOuts raw 0, hi, ?_, hcommit, ?_⟩
  · intro j q hj hq
    rw [enrichAllValue_getElem? revOuts raw 0 j, hq]
    simp [Nat.zero_add]
  · rw [hcommit]
    exact ((sortPages_perm dp rand _ _).mem_iff).2 (List.getElem?_mem hi)

/-- Witness for C4: a two-page batch whose first page's revisions fetch
fails; the second page keeps its embedded revisions and the committed result
contains the failed page with no revisions. -/
theorem c4_backfill_failure_does_not_abort_witness :
    (enrichAllValue (fun j => if j = 0 then .netErr "down" else .ok ⟨some [⟨4⟩]⟩) 0
        [⟨1, "A", none, none⟩, ⟨2, "B", none, some []⟩]).length = 2
    ∧ (enrichAllValue (fun j => if j = 0 then .netErr "down" else .ok ⟨some [⟨4⟩]⟩) 0
        [⟨1, "A", none, none⟩, ⟨2, "B", none, some []⟩])[0]? =
        some ⟨1, "A", none, []⟩
    ∧ (⟨1, "A", none, []⟩ : Page) ∈
        (loadPendingCommitCont (.num 3)
          (enrichAllValue (fun j => if j = 0 then .netErr "down" else .ok ⟨some [⟨4⟩]⟩) 0
            [⟨1, "A", none, none⟩, ⟨2, "B", none, some []⟩])
          (fun k => ⟨0, Nat.succ_pos k⟩) (fun _ => none)
          ⟨[], .num 3, "newest", [], true, "", false⟩).pages := by
  have h := c4_backfill_failure_does_not_abort
    (fun j => if j = 0 then .netErr "down" else .ok ⟨some [⟨4⟩]⟩)
    [⟨1, "A", none, none⟩, ⟨2, "B", none, some []⟩] 0 ⟨1, "A", none, none⟩
    rfl rfl rfl (fun k => ⟨0, Nat.succ_pos k⟩) (fun _ => none)
    ⟨[], .num 3, "newest", [], true, "", false⟩ (.num 3) rfl
  exact ⟨h.1, h.2.1, h.2.2.2.2⟩

/-! ### Failure semantics of the remaining operations -/

/-- C10: `clearCache` is atomic on error: a failing purge request leaves
`pages` exactly as they were, `pages` is emptied only on a successful purge,
and `loading` is dropped in both outcomes. -/
theorem c10_clearCache_atomic (out : FetchOutcome Unit) (s : St)
    (h : s.selectedWikiId.falsy = false) :
    (out.isFailure = true → (clearCache out s).1.pages = s.pages)
    ∧ (∀ v, out = FetchOutcome.ok v → (clearCache out s).1.pages = [])
    ∧ (clearCache out s).1.loading = false := by
  cases out with
  | ok v =>
    refine ⟨fun hf => by simp [FetchOutcome.isFailure] at hf, fun w hw => ?_, ?_⟩ <;>
      simp [clearCache, h, apiRequest, apiRequestSettle]
  | netErr m =>
    refine ⟨fun _ => ?_, fun w hw => FetchOutcome.noConfusion hw, ?_⟩ <;>
      simp [clearCache, h, apiRequest, apiRequestSettle]
  | httpErr a b =>
    refine ⟨fun _ => ?_, fun w hw => FetchOutcome.noConfusion hw, ?_⟩ <;>
      simp [clearCache, h, apiRequest, apiRequestSettle]
  | decodeErr m =>
    refine ⟨fun _ => ?_, fun w hw => FetchOutcome.noConfusion hw, ?_⟩ <;>
      simp [clearCache, h, apiRequest, apiRequestSettle]

/-- Witness for C10: a failing purge keeps the one held page; a successful
purge empties the list; `loading` ends `false` either way. -/
theorem c10_clearCache_atomic_witness :
    (clearCache (.netErr "down") ⟨[], .num 1, "newest", [⟨7, "T", none, []⟩], false, "", false⟩).1.pages
      = [⟨7, "T", none, []⟩]
    ∧ (clearCache (.ok ()) ⟨[], .num 1, "newest", [⟨7, "T", none, []⟩], false, "", false⟩).1.pages = []
    ∧ (clearCache (.netErr "down") ⟨[], .num 1, "newest", [⟨7, "T", none, []⟩], false, "", false⟩).1.loading
      = false :=
  ⟨(c10_clearCache_atomic _ _ (by decide)).1 rfl,
   (c10_clearCache_atomic _ _ (by decide)).2.1 () rfl,
   (c10_clearCache_atomic _ _ (by decide)).2.2⟩

/-- C9: when the configuration `PUT` request errors (network failure or
non-2xx response), the two text fields keep the operator's unsaved edits, the
stored wiki list (hence every stored configuration) is unchanged, the save
operation resolves normally, and the shared error slot holds the normalized
failure message. -/
theorem c9_save_failure_retains_edits (put : FetchOutcome Configuration)
    (s : St) (forms : Forms) (h : s.selectedWikiId.falsy = false)
    (hfail : (∃ m, put = FetchOutcome.netErr m) ∨
      (∃ statusText bodyErr, put = FetchOutcome.httpErr statusText bodyErr)) :
    (saveConfiguration put s forms).2.1 = forms
    ∧ (saveConfiguration put s forms).1.wikis = s.wikis
    ∧ (saveConfiguration put s forms).2.2 = Except.ok ()
    ∧ (saveConfiguration put s forms).1.error =
        orRequestFailed ((failureMessage put).getD "") := by
  rcases hfail with ⟨m, rfl⟩ | ⟨stx, b, rfl⟩ <;>
    exact ⟨by simp [saveConfiguration, h, apiRequest, apiRequestSettle],
      by simp [saveConfiguration, h, apiRequest, apiRequestSettle],
      by simp [saveConfiguration, h, apiRequest, apiRequestSettle],
      by simp [saveConfiguration, h, apiRequest, apiRequestSettle, failureMessage]⟩

/-- Witness for C9 at a concrete failing save. -/
theorem c9_save_failure_retains_edits_witness :
    (saveConfiguration (.netErr "save failed")
        ⟨[⟨.num 1, "https://w/api.php", ⟨[], []⟩⟩], .num 1, "newest", [], false, "", false⟩
        ⟨['e'], ['f']⟩).2.1 = ⟨['e'], ['f']⟩
    ∧ (saveConfiguration (.netErr "save failed")
        ⟨[⟨.num 1, "https://w/api.php", ⟨[], []⟩⟩], .num 1, "newest", [], false, "", false⟩
        ⟨['e'], ['f']⟩).1.wikis = [⟨.num 1, "https://w/api.php", ⟨[], []⟩⟩]
    ∧ (saveConfiguration (.netErr "save failed")
        ⟨[⟨.num 1, "https://w/api.php", ⟨[], []⟩⟩], .num 1, "newest", [], false, "", false⟩
        ⟨['e'], ['f']⟩).1.error = orRequestFailed ((failureMessage
          (FetchOutcome.netErr "save failed" : FetchOutcome Configuration)).getD "") :=
  ⟨(c9_save_failure_retains_edits _ _ _ (by decide) (Or.inl ⟨_, rfl⟩)).1,
   (c9_save_failure_retains_edits _ _ _ (by decide) (Or.inl ⟨_, rfl⟩)).2.1,
   (c9_save_failure_retains_edits _ _ _ (by decide) (Or.inl ⟨_, rfl⟩)).2.2.2⟩

/-- Lemma: `loadPending`'s promise always resolves: its catch and early return cover
every failure of its awaits. -/
theorem loadPending_resolves (pend : FetchOutcome PendingResponse)
    (revOuts : Nat → FetchOutcome RevisionsResponse)
    (rand : (k : Nat) → Fin (k + 1)) (dp : String → Option Int) (s : St) :
    (loadPending pend revOuts rand dp s).2 = Except.ok () := by
  unfold loadPending
  split <;> rfl

/-- C3 (amended): `loadPending`, `saveConfiguration` and the preference
operations resolve normally on every failure, routing it into the error slot
or an empty-result fallback; `refresh` and `clearCache` drop `loading` but
re-propagate a failed request to their caller (they have no catch clause),
and resolve normally otherwise. -/
theorem c3_failure_routing :
    (∀ (pend : FetchOutcome PendingResponse) revOuts rand dp (s : St),
      (loadPending pend revOuts rand dp s).2 = Except.ok ())
    ∧ (∀ (put : FetchOutcome Configuration) (s : St) (forms : Forms),
      (saveConfiguration put s forms).2.2 = Except.ok ())
    ∧ loadFromStorage StorageResult.failure = none
    ∧ (∀ out : StorageResult Unit, saveToStorage out = Except.ok ())
    ∧ (∀ (reindex : FetchOutcome Unit) pend revOuts rand dp (s : St) m,
      s.selectedWikiId.falsy = false → failureMessage reindex = some m →
        (refresh reindex pend revOuts rand dp s).2 = Except.error m
        ∧ (refresh reindex pend revOuts rand dp s).1.loading = false)
    ∧ (∀ pend revOuts rand dp (s : St),
      (refresh (FetchOutcome.ok ()) pend revOuts rand dp s).2 = Except.ok ())
    ∧ (∀ (out : FetchOutcome Unit) (s : St) m,
      s.selectedWikiId.falsy = false → failureMessage out = some m →
        (clearCache out s).2 = Except.error m
        ∧ (clearCache out s).1.loading = false)
    ∧ (∀ (s : St), (clearCache (FetchOutcome.ok ()) s).2 = Except.ok ()) := by
  refine ⟨loadPending_resolves, ?_, rfl, fun out => by cases out <;> rfl, ?_, ?_, ?_, ?_⟩
  · intro put s forms
    unfold saveConfiguration
    split
    · rfl
    · cases put <;> simp [apiRequest, apiRequestSettle]
  · intro reindex pend revOuts rand dp s m h hm
    cases reindex with
    | ok v => simp [failureMessage] at hm
    | netErr m' =>
      simp [failureMessage] at hm
      subst hm
      exact ⟨by simp [refresh, h, apiRequest, apiRequestSettle],
        by simp [refresh, h, apiRequest, apiRequestSettle]⟩
    | httpErr a b =>
      simp only [failureMessage, Option.some_inj] at hm
      subst hm
      exact ⟨by simp [refresh, h, apiRequest, apiRequestSettle],
        by simp [refresh, h, apiRequest, apiRequestSettle]⟩
    | decodeErr m' =>
      simp [failureMessage] at hm
      subst hm
      exact ⟨by simp [refresh, h, apiRequest, apiRequestSettle],
        by simp [refresh, h, apiRequest, apiRequestSettle]⟩
  · intro pend revOuts rand dp s
    unfold refresh
    split
    · rfl
    · simp [apiRequest, apiRequestSettle, loadPending_resolves]
  · intro out s m h hm
    cases out with
    | ok v => simp [failureMessage] at hm
    | netErr m' =>
      simp [failureMessage] at hm
      subst hm
      exact ⟨by simp [clearCache, h, apiRequest, apiRequestSettle],
        by simp [clearCache, h, apiRequest, apiRequestSettle]⟩
    | httpErr a b =>
      simp only [failureMessage, Option.some_inj] at hm
      subst hm
      exact ⟨by simp [clearCache, h, apiRequest, apiRequestSettle],
        by simp [clearCache, h, apiRequest, apiRequestSettle]⟩
    | decodeErr m' =>
      simp [failureMessage] at hm
      subst hm
      exact ⟨by simp [clearCache, h, apiRequest, apiRequestSettle],
        by simp [clearCache, h, apiRequest, apiRequestSettle]⟩
  · intro s
    unfold clearCache
    split
    · rfl
    · simp [apiRequest, apiRequestSettle]

/-- Witness for C3 (amended) at concrete inputs, exercising the resolving
paths and the re-propagating `refresh` path. -/
theorem c3_failure_routing_witness :
    (loadPending (.netErr "x") (fun _ => .netErr "x") (fun k => ⟨0, Nat.succ_pos k⟩)
      (fun _ => none) ⟨[], .num 1, "newest", [], false, "", false⟩).2 = Except.ok ()
    ∧ (refresh (.netErr "down") (.netErr "x") (fun _ => .netErr "x")
        (fun k => ⟨0, Nat.succ_pos k⟩) (fun _ => none)
        ⟨[], .num 1, "newest", [], false, "", false⟩).2 = Except.error "down"
    ∧ (refresh (.netErr "down") (.netErr "x") (fun _ => .netErr "x")
        (fun k => ⟨0, Nat.succ_pos k⟩) (fun _ => none)
        ⟨[], .num 1, "newest", [], false, "", false⟩).1.loading = false :=
  ⟨c3_failure_routing.1 _ _ _ _ _,
   (c3_failure_routing.2.2.2.2.1 (.netErr "down") (.netErr "x") (fun _ => .netErr "x")
      (fun k => ⟨0, Nat.succ_pos k⟩) (fun _ => none)
      ⟨[], .num 1, "newest", [], false, "", false⟩ "down" (by decide) rfl).1,
   (c3_failure_routing.2.2.2.2.1 (.netErr "down") (.netErr "x") (fun _ => .netErr "x")
      (fun k => ⟨0, Nat.succ_pos k⟩) (fun _ => none)
      ⟨[], .num 1, "newest", [], false, "", false⟩ "down" (by decide) rfl).2⟩

/-- Counterexample to C3 as stated: a failing purge request makes
`clearCache`'s promise reject (the failure escapes the operation), so not
every public operation terminates normally. -/
theorem c3_counterexample :
    (clearCache (FetchOutcome.netErr "network down")
      ⟨[], .num 1, "newest", [], false, "", false⟩).2 = Except.error "network down" := by
  rfl

/-! ### Reference-level model of the sort engine (mutation discipline) -/

/-- A heap of JS page arrays; a reference is an index into the store. -/
structure Store where
  arrays : List (List Page)

/-- Dereference (a dangling reference reads `[]`; the program never follows
one). -/
def Store.read (st : Store) (r : Nat) : List Page :=
  (st.arrays[r]?).getD []

/-- Write through a reference. -/
def Store.write (st : Store) (r : Nat) (v : List Page) : Store :=
  ⟨st.arrays.set r v⟩

/-- Allocate a fresh array (a `[...pages]` spread, a `[]` literal, …) and
return its reference. -/
def Store.alloc (st : Store) (v : List Page) : Store × Nat :=
  (⟨st.arrays ++ [v]⟩, st.arrays.length)

/-- The Fisher–Yates loop acting in place on the array `dst`. -/
def shuffleLoopRef (rand : (k : Nat) → Fin (k + 1)) (dst : Nat) :
    Nat → Store → Store
  | 0, st => st
  | k + 1, st =>
    shuffleLoopRef rand dst k
      (st.write dst (listSwap (st.read dst) (k + 1) (rand (k + 1)).val))

/-- Function `shufflePages` at reference level: spread the input array into a fresh
copy, shuffle the copy in place, return the copy's reference. -/
def shufflePagesRef (rand : (k : Nat) → Fin (k + 1)) (st : Store) (src : Nat) :
    Store × Nat :=
  let v := st.read src
  let a := st.alloc v
  (shuffleLoopRef rand a.2 (v.length - 1) a.1, a.2)

/-- Function `sortPages` at reference level: a non-array input returns a freshly
allocated `[]`; otherwise the input array is spread into a fresh copy which
is sorted (or shuffled) in place and returned. -/
def sortPagesRef (dp : String → Option Int) (rand : (k : Nat) → Fin (k + 1))
    (st : Store) (src : Option Nat) (order : String) : Store × Nat :=
  match src with
  | none => st.alloc []
  | some r =>
    if order = "random" then shufflePagesRef rand st r
    else
      let v := st.read r
      let a := st.alloc v
      (a.1.write a.2 (v.mergeSort (fun x y => decide (pageCompare dp order x y ≤ 0))), a.2)

/-- The reference returned by an allocation is the store's previous size. -/
theorem Store.alloc_snd (st : Store) (v : List Page) :
    (st.alloc v).2 = st.arrays.length := rfl

/-- Reading below the allocation point is unaffected by an allocation. -/
theorem Store.read_alloc_lt (st : Store) (v : List Page) (q : Nat)
    (h : q < st.arrays.length) : (st.alloc v).1.read q = st.read q := by
  simp [Store.alloc, Store.read, List.getElem?_append_left h]

/-- A freshly allocated cell holds the allocated value. -/
theorem Store.read_alloc_self (st : Store) (v : List Page) :
    (st.alloc v).1.read (st.alloc v).2 = v := by
  simp [Store.alloc, Store.read, List.getElem?_concat_length]

/-- Writing one cell leaves every other cell unchanged. -/
theorem Store.read_write_ne (st : Store) (r q : Nat) (v : List Page)
    (h : r ≠ q) : (st.write r v).read q = st.read q := by
  simp [Store.write, Store.read, List.getElem?_set_ne h]

/-- The in-place shuffle loop writes only its destination array. -/
theorem shuffleLoopRef_read_ne (rand : (k : Nat) → Fin (k + 1)) (dst q : Nat)
    (h : dst ≠ q) : ∀ (k : Nat) (st : Store),
    (shuffleLoopRef rand dst k st).read q = st.read q := by
  intro k
  induction k with
  | zero => intro st; rfl
  | succ k ih =>
    intro st
    rw [shuffleLoopRef, ih, Store.read_write_ne st dst q _ h]

/-- C8: `sortPages` never mutates its input array — after the call the input
reference still holds exactly the elements it held, in the same order — and
it returns a fresh array (a reference distinct from the input's); a non-array
input yields the empty sequence. -/
theorem c8_sort_is_non_mutating (dp : String → Option Int)
    (rand : (k : Nat) → Fin (k + 1)) (order : String) (st : Store) :
    (∀ r, r < st.arrays.length →
      (sortPagesRef dp rand st (some r) order).1.read r = st.read r
      ∧ (sortPagesRef dp rand st (some r) order).2 ≠ r)
    ∧ (sortPagesRef dp rand st none order).1.read
        (sortPagesRef dp rand st none order).2 = [] := by
  constructor
  · intro r hr
    have hne : st.arrays.length ≠ r := by omega
    by_cases ho : order = "random"
    · constructor
      · simp only [sortPagesRef, if_pos ho, shufflePagesRef, Store.alloc_snd]
        rw [shuffleLoopRef_read_ne rand _ r hne, Store.read_alloc_lt st _ r hr]
      · simp only [sortPagesRef, if_pos ho, shufflePagesRef]
        exact hne
    · constructor
      · simp only [sortPagesRef, if_neg ho, Store.alloc_snd]
        rw [Store.read_write_ne _ _ _ _ hne, Store.read_alloc_lt st _ r hr]
      · simp only [sortPagesRef, if_neg ho]
        exact hne
  · exact Store.read_alloc_self st []

/-- Witness for C8 at a one-array store. -/
theorem c8_sort_is_non_mutating_witness :
    (sortPagesRef (fun _ => none) (fun k => ⟨0, Nat.succ_pos k⟩)
        ⟨[[⟨1, "A", none, []⟩, ⟨2, "B", none, []⟩]]⟩ (some 0) "random").1.read 0
      = [⟨1, "A", none, []⟩, ⟨2, "B", none, []⟩]
    ∧ (sortPagesRef (fun _ => none) (fun k => ⟨0, Nat.succ_pos k⟩)
        ⟨[[⟨1, "A", none, []⟩, ⟨2, "B", none, []⟩]]⟩ (some 0) "random").2 ≠ 0 := by
  have h := (c8_sort_is_non_mutating (fun _ => none) (fun k => ⟨0, Nat.succ_pos k⟩)
    "random" ⟨[[⟨1, "A", none, []⟩, ⟨2, "B", none, []⟩]]⟩).1 0 (by decide)
  exact ⟨h.1.trans (by decide), h.2⟩
